import Mathlib

/-!
Shallow embedding of the `MobileCronScheduler` core from `src/mobilecron.ts`
of the capacitor-mobilecron repository, together with theorems checking the
specification's claims about it.

Modelling conventions:
* JavaScript numbers that the scheduler treats as integer epoch-milliseconds
  or counters are modelled as `Int` (NaN / infinite values are outside the
  model; the code's `Number.isFinite` guards are therefore vacuous here).
* Optional / possibly-non-number fields (`everyMs?`, `anchorMs?`, `atMs?`,
  `nextDueAt?`, ...) are modelled as `Option Int`: `none` stands for a field
  that is missing or fails the code's `typeof x === 'number'` test.
* The host's `Intl.DateTimeFormat` is modelled by a `TimeEnv` record:
  `tzValid` says whether the constructor accepts a timezone string (per
  ECMA-402 an invalid identifier raises `RangeError`), and `localParts`
  returns the hour/minute parts `formatToParts` would produce for a
  timestamp in a timezone.  A thrown `RangeError` is modelled as
  `Except.error`.
* `JSON.stringify`/`JSON.parse` round-trip structured JSON-safe data, so the
  persisted blob is modelled structurally: `none` stands for a blob that is
  absent, unparseable, or parses to a falsy value; `RawState`/`RawJob` model
  the parsed object with the looseness (`Option` fields) that `load` handles.
* The in-memory `Map<string, CronJobState>` is modelled as a `List` in
  insertion order; `setJob` mirrors `Map.set` (replace in place, else append)
  and `getJob` mirrors `Map.get`.
-/

namespace MobileCron

/-- Schedule kinds: `'every'` (recurring) and `'at'` (one-shot).
`at` is a Lean keyword, hence the prime. -/
inductive ScheduleKind where
  | every
  | at'
deriving DecidableEq, Repr

/-- `CronSchedule` from `definitions.ts`: a tagged record whose numeric
fields are all optional. -/
structure CronSchedule where
  kind : ScheduleKind
  everyMs : Option Int := none
  anchorMs : Option Int := none
  atMs : Option Int := none
deriving DecidableEq, Repr

/-- `MobileCronScheduler.computeNextDueAt` (mobilecron.ts lines 385-400). -/
def computeNextDueAt (schedule : CronSchedule) (nowMs : Int) : Option Int :=
  match schedule.kind with
  | .at' =>
    match schedule.atMs with
    | none => none
    | some atMs => if atMs > nowMs then some atMs else none
  | .every =>
    match schedule.everyMs with
    | none => none
    | some everyMs =>
      if everyMs ≤ 0 then none
      else
        let anchorMs := schedule.anchorMs.getD nowMs
        if nowMs < anchorMs then some anchorMs
        else
          let elapsed := nowMs - anchorMs
          let steps := Int.fdiv elapsed everyMs + 1
          some (anchorMs + steps * everyMs)

/-- `ActiveHours` from `definitions.ts`; `end` is a Lean keyword, hence the
prime. -/
structure ActiveHours where
  start : String
  end' : String
  tz : Option String := none
deriving DecidableEq, Repr

/-- `MobileCronScheduler.parseClock` (mobilecron.ts lines 629-636): the
regex `^(\d{2}):(\d{2})$` followed by the 0-23 / 0-59 bounds check. -/
def parseClock (value : String) : Option Nat :=
  match value.toList with
  | [a, b, c, d, e] =>
    if a.isDigit && b.isDigit && c = ':' && d.isDigit && e.isDigit then
      let hh := 10 * (a.toNat - 48) + (b.toNat - 48)
      let mm := 10 * (d.toNat - 48) + (e.toNat - 48)
      if hh ≤ 23 && mm ≤ 59 then some (hh * 60 + mm) else none
    else none
  | _ => none

/-- Host model for `Intl.DateTimeFormat`: `tzValid tz` is whether
`new Intl.DateTimeFormat('en-US', { timeZone: tz })` succeeds (ECMA-402
rejects invalid identifiers with a `RangeError`), and `localParts tz nowMs`
is the `(hour, minute)` pair `formatToParts` yields for `nowMs` resolved in
`tz` (`none` = system timezone, which always resolves). -/
structure TimeEnv where
  tzValid : String → Bool
  localParts : Option String → Int → Nat × Nat

/-- `MobileCronScheduler.isWithinActiveHours` (mobilecron.ts lines 402-421).
The `Except.error` case is the `RangeError` thrown by the
`Intl.DateTimeFormat` constructor when `hours.tz` is an invalid timezone
identifier; that construction happens after the `parseClock` fail-open
check and before the window comparison. -/
def isWithinActiveHours (env : TimeEnv) (hours : ActiveHours) (nowMs : Int) :
    Except Unit Bool :=
  match parseClock hours.start, parseClock hours.end' with
  | some start, some stop =>
    match hours.tz with
    | some tz =>
      if env.tzValid tz then
        let p := env.localParts (some tz) nowMs
        let nowMinutes := p.1 * 60 + p.2
        if start = stop then .ok true
        else if start < stop then .ok (decide (start ≤ nowMinutes ∧ nowMinutes < stop))
        else .ok (decide (start ≤ nowMinutes ∨ nowMinutes < stop))
      else .error ()
    | none =>
      let p := env.localParts none nowMs
      let nowMinutes := p.1 * 60 + p.2
      if start = stop then .ok true
      else if start < stop then .ok (decide (start ≤ nowMinutes ∧ nowMinutes < stop))
      else .ok (decide (start ≤ nowMinutes ∨ nowMinutes < stop))
  | _, _ => .ok true

/-- `WakeSource` from `definitions.ts`. -/
inductive WakeSource where
  | watchdog
  | workmanager
  | workmanager_chain
  | charging
  | foreground
  | bgtask_refresh
  | bgtask_processing
  | bgtask_continued
  | manual
deriving DecidableEq, Repr

/-- Job priority hint. -/
inductive Priority where
  | low
  | normal
  | high
deriving DecidableEq, Repr

/-- `JobSkippedEvent['reason']` from `definitions.ts`. -/
inductive SkipReason where
  | outside_active_hours
  | paused
  | requires_network
  | requires_charging
deriving DecidableEq, Repr

/-- The user payload `data?: Record<string, unknown>`: kept abstract as a
flat key/value record; the scheduler stores and returns it verbatim. -/
abbrev JobData := List (String × String)

/-- `CronJobState` from `mobilecron.ts` lines 119-134. -/
structure CronJobState where
  id : String
  name : String
  enabled : Bool
  schedule : CronSchedule
  activeHours : Option ActiveHours := none
  requiresNetwork : Bool
  requiresCharging : Bool
  priority : Priority
  data : Option JobData := none
  lastFiredAt : Option Int := none
  nextDueAt : Option Int := none
  consecutiveSkips : Int
  createdAt : Int
  updatedAt : Int
deriving DecidableEq, Repr

/-- `JobDueEvent` from `definitions.ts`. -/
structure JobDueEvent where
  id : String
  name : String
  firedAt : Int
  source : WakeSource
  data : Option JobData
deriving DecidableEq, Repr

/-- `JobSkippedEvent` from `definitions.ts`. -/
structure JobSkippedEvent where
  id : String
  name : String
  reason : SkipReason
deriving DecidableEq, Repr

/-- One entry of `OverdueEvent['jobs']` from `definitions.ts`. -/
structure OverdueItem where
  id : String
  name : String
  overdueMs : Int
deriving DecidableEq, Repr

/-- Environment observed by the evaluation pass: the `Intl` host model plus
`navigator.onLine` (`networkAvailable` is `navigator.onLine !== false`,
`true` when `navigator` is undefined). -/
structure EvalEnv where
  time : TimeEnv
  networkAvailable : Bool

/-- `MobileCronScheduler.isNetworkAvailable` (mobilecron.ts lines 579-582). -/
def isNetworkAvailable (env : EvalEnv) : Bool :=
  env.networkAvailable

/-- `MobileCronScheduler.isChargingAvailable` (mobilecron.ts lines 584-588):
true only for the `'charging'` wake source; the web fallback has no
charging API. -/
def isChargingAvailable (source : WakeSource) : Bool :=
  match source with
  | .charging => true
  | _ => false

/-- `MobileCronScheduler.getSkipReason` (mobilecron.ts lines 571-577): the
fixed cascade paused → outside_active_hours → requires_network →
requires_charging.  The `Except.error` case propagates a `RangeError`
thrown by `isWithinActiveHours`. -/
def getSkipReason (env : EvalEnv) (paused : Bool) (job : CronJobState)
    (now : Int) (source : WakeSource) : Except Unit (Option SkipReason) :=
  if paused then .ok (some .paused)
  else
    let rest : Except Unit (Option SkipReason) :=
      if job.requiresNetwork && !isNetworkAvailable env then
        .ok (some .requires_network)
      else if job.requiresCharging && !isChargingAvailable source then
        .ok (some .requires_charging)
      else .ok none
    match job.activeHours with
    | some hours =>
      match isWithinActiveHours env.time hours now with
      | .error e => .error e
      | .ok within => if !within then .ok (some .outside_active_hours) else rest
    | none => rest

/-- `MobileCronScheduler.fireJob` (mobilecron.ts lines 550-569): stamp the
fire, then either terminate a one-shot or advance a recurring schedule;
returns the new job state and the `JobDueEvent`. -/
def fireJob (job : CronJobState) (now : Int) (source : WakeSource) :
    CronJobState × JobDueEvent :=
  let j := { job with lastFiredAt := some now, updatedAt := now, consecutiveSkips := 0 }
  let j :=
    if job.schedule.kind = .at' then
      { j with enabled := false, nextDueAt := none }
    else
      { j with nextDueAt := computeNextDueAt job.schedule now }
  (j, { id := job.id, name := job.name, firedAt := now, source := source, data := job.data })

/-- The body of the `for` loop of `MobileCronScheduler.checkDueJobs`
(mobilecron.ts lines 341-368) for one job: returns the updated job, the
optional due/skipped/overdue records it contributes, and whether it was
mutated.  `Except.error j` models a thrown `RangeError` escaping the loop;
at that point the current job carries only the `nextDueAt` backfill
(mobilecron.ts line 345), since the skip/fire mutations happen after
`getSkipReason` returns. -/
def processJob (env : EvalEnv) (paused : Bool) (source : WakeSource)
    (now : Int) (job : CronJobState) :
    Except CronJobState
      (CronJobState × Option JobDueEvent × Option JobSkippedEvent × Option OverdueItem × Bool) :=
  if !job.enabled then .ok (job, none, none, none, false)
  else
    let backfill := job.nextDueAt = none
    let j1 := if backfill then { job with nextDueAt := computeNextDueAt job.schedule now } else job
    match j1.nextDueAt with
    | none => .ok (j1, none, none, none, backfill)
    | some dueAt =>
      if dueAt > now then .ok (j1, none, none, none, backfill)
      else
        match getSkipReason env paused j1 now source with
        | .error _ => .error j1
        | .ok (some reason) =>
          let j2 := { j1 with
            consecutiveSkips := j1.consecutiveSkips + 1,
            updatedAt := now,
            nextDueAt :=
              if j1.schedule.kind = .every then computeNextDueAt j1.schedule now
              else j1.nextDueAt }
          .ok (j2, none, some { id := j1.id, name := j1.name, reason := reason }, none, true)
        | .ok none =>
          let fired := fireJob j1 now source
          .ok (fired.1, some fired.2, none,
            some { id := j1.id, name := j1.name, overdueMs := max 0 (now - dueAt) }, true)

/-- `MobileCronScheduler.checkDueJobs`' iteration over the job map: runs
`processJob` over the list in insertion order, concatenating the event
lists in push order.  `Except.error jobs` is the in-memory job list at the
moment a `RangeError` escaped (prior jobs mutated, later jobs untouched,
no save). -/
def runJobs (env : EvalEnv) (paused : Bool) (source : WakeSource) (now : Int) :
    List CronJobState →
    Except (List CronJobState)
      (List CronJobState × List JobDueEvent × List JobSkippedEvent × List OverdueItem × Bool)
  | [] => .ok ([], [], [], [], false)
  | job :: rest =>
    match processJob env paused source now job with
    | .error j => .error (j :: rest)
    | .ok (j, due?, skip?, over?, m) =>
      match runJobs env paused source now rest with
      | .error rest' => .error (j :: rest')
      | .ok (rest', dues, skips, overs, m') =>
        .ok (j :: rest', due?.toList ++ dues, skip?.toList ++ skips, over?.toList ++ overs, m || m')

/-- Scheduler-wide mutable state of `MobileCronScheduler` (the `jobs` map in
insertion order plus `paused`, `mode`, `platform`).  `mode` is a `String`
because at runtime TypeScript's `SchedulingMode` union is just a string. -/
structure SchedulerCore where
  jobs : List CronJobState
  paused : Bool
  mode : String
  platform : String
deriving DecidableEq, Repr

/-- Fresh-instance state: `jobs` empty, `paused = false`,
`mode = 'balanced'` (mobilecron.ts lines 165-168). -/
def defaultCore (platform : String) : SchedulerCore :=
  { jobs := [], paused := false, mode := "balanced", platform := platform }

/-- `Map.get` on the job map. -/
def getJob (jobs : List CronJobState) (id : String) : Option CronJobState :=
  jobs.find? (fun j => j.id = id)

/-- `Map.set` on the job map: replace the entry with the same id in place,
else append. -/
def setJob : List CronJobState → CronJobState → List CronJobState
  | [], j => [j]
  | x :: xs, j => if x.id = j.id then j :: xs else x :: setJob xs j

/-- `MobileCronScheduler.checkDueJobs` (mobilecron.ts lines 334-383) at the
state level: evaluates every job and returns the new state with the
due/skipped/overdue lists (hook dispatch and the conditional save are
outside the model). -/
def checkDueJobs (env : EvalEnv) (state : SchedulerCore) (source : WakeSource) (now : Int) :
    Except SchedulerCore
      (SchedulerCore × List JobDueEvent × List JobSkippedEvent × List OverdueItem) :=
  match runJobs env state.paused source now state.jobs with
  | .error jobs => .error { state with jobs := jobs }
  | .ok (jobs, dues, skips, overs, _) => .ok ({ state with jobs := jobs }, dues, skips, overs)

/-- `MobileCronScheduler.triggerNow` (mobilecron.ts lines 295-305): look the
job up by id, fire it immediately with source `'manual'`, store the
advanced job; reject with `Job not found` when the id is unknown.  Nothing
here consults `paused`, `activeHours`, the constraint flags, or the job's
`enabled` flag. -/
def triggerNow (state : SchedulerCore) (id : String) (now : Int) :
    Except String (SchedulerCore × JobDueEvent) :=
  match getJob state.jobs id with
  | none => .error ("Job not found: " ++ id)
  | some job =>
    let fired := fireJob job now .manual
    .ok ({ state with jobs := setJob state.jobs fired.1 }, fired.2)

/-- `MobileCronScheduler.setMode` (mobilecron.ts lines 321-327): stores the
given mode unconditionally (the watchdog restart, save and status emission
are outside the model).  There is no runtime membership check. -/
def setMode (state : SchedulerCore) (mode : String) : SchedulerCore :=
  { state with mode := mode }

/-- `MobileCronScheduler.getEarliestNextDue` (mobilecron.ts lines 525-534). -/
def getEarliestNextDue (jobs : List CronJobState) (now : Int) : Option Int :=
  jobs.foldl
    (fun earliest job =>
      if !job.enabled then earliest
      else
        match job.nextDueAt.orElse (fun _ => computeNextDueAt job.schedule now) with
        | none => earliest
        | some next =>
          match earliest with
          | none => some next
          | some e => some (min e next))
    none

/-- The `CronStatus` fields the core computes (platform diagnostics blocks
are pass-through configuration and are omitted). -/
structure CronStatusModel where
  paused : Bool
  mode : String
  platform : String
  activeJobCount : Nat
  nextDueAt : Option Int
deriving DecidableEq, Repr

/-- `MobileCronScheduler.buildStatus` (mobilecron.ts lines 502-523), which
`getStatus` returns after init. -/
def buildStatus (state : SchedulerCore) (now : Int) : CronStatusModel :=
  { paused := state.paused
    mode := state.mode
    platform := state.platform
    activeJobCount := (state.jobs.filter (fun j => j.enabled)).length
    nextDueAt := getEarliestNextDue state.jobs now }

/-- `MobileCronScheduler.validateSchedule` (mobilecron.ts lines 596-615) as
a predicate: `true` iff the method does not throw.  `Option.isSome` stands
for the `typeof x === 'number'` tests; `Number.isFinite` is vacuous over
`Int`. -/
def validateSchedule (platform : String) (schedule : CronSchedule) : Bool :=
  match schedule.kind with
  | .every =>
    match schedule.everyMs with
    | none => false
    | some everyMs =>
      if everyMs ≤ 0 then false
      else if platform ≠ "web" && everyMs < 60000 then false
      else true
  | .at' => schedule.atMs.isSome

/-- `MobileCronScheduler.normalizeSchedule` (mobilecron.ts lines 638-651). -/
def normalizeSchedule (schedule : CronSchedule) (now : Int) : CronSchedule :=
  match schedule.kind with
  | .every =>
    { kind := .every
      everyMs := schedule.everyMs
      anchorMs := some (schedule.anchorMs.getD now)
      atMs := none }
  | .at' =>
    { kind := .at'
      everyMs := none
      anchorMs := none
      atMs := schedule.atMs }

/-- One entry of the parsed `jobs` array of a persisted blob, with the
optionality that `load` (mobilecron.ts lines 471-499) handles: `priority`,
`consecutiveSkips`, `createdAt` and `updatedAt` may be missing (`?? ...`
defaults apply). -/
structure RawJob where
  id : String
  name : String
  enabled : Bool
  schedule : CronSchedule
  activeHours : Option ActiveHours := none
  requiresNetwork : Bool
  requiresCharging : Bool
  priority : Option Priority := none
  data : Option JobData := none
  lastFiredAt : Option Int := none
  nextDueAt : Option Int := none
  consecutiveSkips : Option Int := none
  createdAt : Option Int := none
  updatedAt : Option Int := none
deriving DecidableEq, Repr

/-- A parsed persisted blob (`PersistedState` after `JSON.parse`):
`version`, `paused`, `mode` and `jobs` may all be missing. -/
structure RawState where
  version : Option Int := none
  paused : Option Bool := none
  mode : Option String := none
  jobs : Option (List RawJob) := none
deriving DecidableEq, Repr

/-- The per-job restoration step of `load` (mobilecron.ts lines 478-497):
build the `restored` record with its `String(...)`/`Boolean(...)`/`?? ...`
coercions and normalized schedule, then backfill `nextDueAt` for an enabled
job that has none. -/
def restoreJob (now : Int) (job : RawJob) : CronJobState :=
  let restored : CronJobState :=
    { id := job.id
      name := job.name
      enabled := job.enabled
      schedule := normalizeSchedule job.schedule now
      activeHours := job.activeHours
      requiresNetwork := job.requiresNetwork
      requiresCharging := job.requiresCharging
      priority := job.priority.getD .normal
      data := job.data
      lastFiredAt := job.lastFiredAt
      nextDueAt := job.nextDueAt
      consecutiveSkips := job.consecutiveSkips.getD 0
      createdAt := job.createdAt.getD now
      updatedAt := job.updatedAt.getD now }
  if restored.enabled && restored.nextDueAt = none then
    { restored with nextDueAt := computeNextDueAt restored.schedule now }
  else restored

/-- `MobileCronScheduler.load` (mobilecron.ts lines 444-500) applied to a
current in-memory state (at init, the fresh default state).  `blob = none`
covers an absent, unparseable, or falsy-parsing stored value, all of which
return early and keep the current state; a `version` other than `1` does
the same.  On a version-1 blob the state is rebuilt from the blob's
fields; each job whose schedule fails validation is dropped
(`try { validateSchedule } catch { continue }`), the rest are restored in
order via `Map.set`. -/
def load (state : SchedulerCore) (blob : Option RawState) (now : Int) : SchedulerCore :=
  match blob with
  | none => state
  | some parsed =>
    if parsed.version ≠ some 1 then state
    else
      (parsed.jobs.getD []).foldl
        (fun acc job =>
          if validateSchedule state.platform job.schedule then
            { acc with jobs := setJob acc.jobs (restoreJob now job) }
          else acc)
        { state with
            paused := parsed.paused.getD false
            mode := parsed.mode.getD "balanced"
            jobs := [] }

/-- One job as `save` (mobilecron.ts lines 423-442) serializes it: the
in-memory record written field-for-field (`JSON.stringify` of a
`CronJobState`, re-read by `JSON.parse`). -/
def serializeJob (job : CronJobState) : RawJob :=
  { id := job.id
    name := job.name
    enabled := job.enabled
    schedule := job.schedule
    activeHours := job.activeHours
    requiresNetwork := job.requiresNetwork
    requiresCharging := job.requiresCharging
    priority := some job.priority
    data := job.data
    lastFiredAt := job.lastFiredAt
    nextDueAt := job.nextDueAt
    consecutiveSkips := some job.consecutiveSkips
    createdAt := some job.createdAt
    updatedAt := some job.updatedAt }

/-- The blob `save` writes: `{ version: 1, paused, mode, jobs }` after the
stringify/parse round-trip of JSON-safe data. -/
def serialize (state : SchedulerCore) : RawState :=
  { version := some 1
    paused := some state.paused
    mode := some state.mode
    jobs := some (state.jobs.map serializeJob) }

/-- A schedule in the normal form `normalizeSchedule` produces: an `every`
schedule carries an anchor and no `atMs`; an `at` schedule carries only
`atMs`. -/
def NormalSchedule (schedule : CronSchedule) : Prop :=
  match schedule.kind with
  | .every => schedule.anchorMs.isSome ∧ schedule.atMs = none
  | .at' => schedule.everyMs = none ∧ schedule.anchorMs = none

instance : DecidablePred NormalSchedule := fun s => by
  unfold NormalSchedule
  exact match s.kind with
  | .every => inferInstanceAs (Decidable (_ ∧ _))
  | .at' => inferInstanceAs (Decidable (_ ∧ _))

/-- A job the persistence layer round-trips exactly: its schedule passes
validation for the given platform and is in normal form, and its
`nextDueAt` is consistent at the reload time `now` — absent for an enabled
job only when no future occurrence is computable (which is exactly when
`load`'s backfill would leave it absent too). -/
def ValidJob (platform : String) (now : Int) (job : CronJobState) : Prop :=
  validateSchedule platform job.schedule = true
  ∧ NormalSchedule job.schedule
  ∧ (job.enabled = true → job.nextDueAt = none → computeNextDueAt job.schedule now = none)

/-! ### Helper lemmas -/

/-- `Math.floor` of a nonnegative-result division: the code's
`Math.floor(elapsed / everyMs)` is `Int.fdiv`, which agrees with Euclidean
division for a positive divisor. -/
theorem fdiv_eq_ediv_of_pos {x e : Int} (he : 0 < e) : Int.fdiv x e = x / e :=
  Int.fdiv_eq_ediv x he.le

/-- Closed form of `computeNextDueAt` for a well-formed anchored `every`
schedule. -/
theorem computeNextDueAt_every (s : CronSchedule) (now e a : Int) (he : 0 < e)
    (hk : s.kind = .every) (hev : s.everyMs = some e) (han : s.anchorMs = some a) :
    computeNextDueAt s now =
      some (if now < a then a else a + ((now - a) / e + 1) * e) := by
  obtain ⟨k, ev, an, t⟩ := s
  simp only at hk hev han
  subst hk hev han
  simp only [computeNextDueAt, Option.getD_some, if_neg (not_le.mpr he)]
  split
  · rfl
  · rw [fdiv_eq_ediv_of_pos he]

/-- The advanced slot is strictly in the future. -/
theorem nextSlot_gt {e a now : Int} (he : 0 < e) :
    now < a + ((now - a) / e + 1) * e := by
  have h := Int.lt_ediv_add_one_mul_self (now - a) he
  linarith

/-- The advanced slot is at or before every anchor-aligned instant strictly
after `now`. -/
theorem nextSlot_min {e a now k : Int} (he : 0 < e) (hm : now < a + k * e) :
    a + ((now - a) / e + 1) * e ≤ a + k * e := by
  have h1 : (now - a) / e < k := by
    rw [Int.ediv_lt_iff_lt_mul he]
    linarith
  have h2 : (now - a) / e + 1 ≤ k := h1
  have h3 := mul_le_mul_of_nonneg_right h2 he.le
  linarith

/-- The advanced slot is anchor-aligned with a nonnegative step count when
the anchor is not in the future. -/
theorem nextSlot_aligned {e a now : Int} (he : 0 < e) (h : a ≤ now) :
    ∃ k : Int, 0 ≤ k ∧ a + ((now - a) / e + 1) * e = a + k * e := by
  refine ⟨(now - a) / e + 1, ?_, rfl⟩
  have := Int.ediv_nonneg (by linarith : (0 : Int) ≤ now - a) he.le
  linarith

/-! ### C1 -/

/-- C1: `computeNextDueAt` matches the reference definition of spec §4.1.
For an `At` schedule it returns `atMs` exactly when `atMs > now` and is
absent otherwise; for an `Every` schedule with positive `everyMs` and an
anchor it returns the anchor when `now < anchorMs` and otherwise
`anchorMs + (floor((now - anchorMs) / everyMs) + 1) * everyMs` (the code's
`Math.floor` is `Int.fdiv`, equal to `/` here), which is the smallest
anchor-aligned instant strictly greater than `now`; for a malformed
schedule (missing or non-positive `everyMs`, missing `atMs`) the result is
absent. -/
theorem computeNextDueAt_spec (s : CronSchedule) (now : Int) :
    (s.kind = .at' →
      computeNextDueAt s now =
        (match s.atMs with
         | some a => if a > now then some a else none
         | none => none))
    ∧ (∀ e a : Int, s.kind = .every → s.everyMs = some e → 0 < e → s.anchorMs = some a →
        (now < a → computeNextDueAt s now = some a)
        ∧ (a ≤ now →
            computeNextDueAt s now = some (a + (Int.fdiv (now - a) e + 1) * e)
            ∧ Int.fdiv (now - a) e = (now - a) / e
            ∧ (∀ r : Int, computeNextDueAt s now = some r →
                now < r
                ∧ (∃ k : Int, 0 ≤ k ∧ r = a + k * e)
                ∧ ∀ k : Int, now < a + k * e → r ≤ a + k * e)))
    ∧ (s.kind = .every → s.everyMs = none → computeNextDueAt s now = none)
    ∧ (∀ e : Int, s.kind = .every → s.everyMs = some e → e ≤ 0 →
        computeNextDueAt s now = none)
    ∧ (s.kind = .at' → s.atMs = none → computeNextDueAt s now = none) := by
  refine ⟨?_, ?_, ?_, ?_, ?_⟩
  · intro hk
    obtain ⟨k, ev, an, t⟩ := s
    simp only at hk
    subst hk
    cases t <;> rfl
  · intro e a hk hev he han
    have heq := computeNextDueAt_every s now e a he hk hev han
    constructor
    · intro hlt
      rw [heq, if_pos hlt]
    · intro hle
      have hnot : ¬ now < a := not_lt.mpr hle
      have h1 : computeNextDueAt s now = some (a + (Int.fdiv (now - a) e + 1) * e) := by
        rw [fdiv_eq_ediv_of_pos he, heq, if_neg hnot]
      refine ⟨h1, fdiv_eq_ediv_of_pos he, ?_⟩
      intro r hr
      rw [heq, if_neg hnot] at hr
      have hr' : r = a + ((now - a) / e + 1) * e := (Option.some.inj hr).symm
      subst hr'
      refine ⟨nextSlot_gt he, nextSlot_aligned he hle, ?_⟩
      intro k hk'
      exact nextSlot_min he hk'
  · intro hk hev
    obtain ⟨k, ev, an, t⟩ := s
    simp only at hk hev
    subst hk hev
    simp [computeNextDueAt]
  · intro e hk hev he
    obtain ⟨k, ev, an, t⟩ := s
    simp only at hk hev
    subst hk hev
    simp [computeNextDueAt, if_pos he]
  · intro hk hat
    obtain ⟨k, ev, an, t⟩ := s
    simp only at hk hat
    subst hk hat
    simp [computeNextDueAt]

/-- Witness for C1: the `every 60000, anchor 1000000` schedule evaluated at
`1090000` advances to the next aligned slot `1120000`, by the theorem. -/
theorem computeNextDueAt_spec_witness :
    computeNextDueAt ⟨.every, some 60000, some 1000000, none⟩ 1090000 = some 1120000 := by
  have h := (computeNextDueAt_spec ⟨.every, some 60000, some 1000000, none⟩ 1090000).2.1
    60000 1000000 rfl rfl (by decide) rfl
  have h2 := (h.2 (by decide)).1
  rw [h2]
  decide

/-! ### C2 -/

/-- A disabled job is left untouched by an evaluation pass and contributes
no event. -/
theorem processJob_disabled (env : EvalEnv) (paused : Bool) (source : WakeSource)
    (now : Int) (job : CronJobState) (h : job.enabled = false) :
    processJob env paused source now job = .ok (job, none, none, none, false) := by
  simp [processJob, h]

/-- C2: when an evaluation pass fires an enabled, due, non-skipped job it
stamps `lastFiredAt = now`, `updatedAt = now`, resets
`consecutiveSkips = 0`, and emits the due event together with the overdue
record.  For an `At` schedule it additionally sets `enabled = false` and
clears `nextDueAt`, and every later evaluation pass leaves the job
untouched and fires nothing; for an `Every` schedule it performs the single
advance `nextDueAt = computeNextDueAt(schedule, now)`, a slot strictly
greater than `now` (and, when the anchor is not in the future, at or below
every aligned slot strictly after `now` — so one pass advances exactly one
slot, never a backlog).  `processJob` is the loop body of `checkDueJobs`;
the singleton-state conjunct states the same at the `checkDueJobs` level. -/
theorem checkDueJobs_fire_advance (env : EvalEnv) (paused : Bool) (source : WakeSource)
    (now : Int) (job : CronJobState) (d : Int)
    (henabled : job.enabled = true) (hdue : job.nextDueAt = some d) (hd : d ≤ now)
    (hskip : getSkipReason env paused job now source = .ok none) :
    ∃ j' : CronJobState,
      processJob env paused source now job =
        .ok (j',
          some { id := job.id, name := job.name, firedAt := now, source := source, data := job.data },
          none,
          some { id := job.id, name := job.name, overdueMs := max 0 (now - d) }, true)
      ∧ j'.lastFiredAt = some now
      ∧ j'.updatedAt = now
      ∧ j'.consecutiveSkips = 0
      ∧ (∀ st : SchedulerCore, st.jobs = [job] → st.paused = paused →
          checkDueJobs env st source now =
            .ok ({ st with jobs := [j'] },
              [{ id := job.id, name := job.name, firedAt := now, source := source, data := job.data }],
              [],
              [{ id := job.id, name := job.name, overdueMs := max 0 (now - d) }]))
      ∧ (job.schedule.kind = .at' →
          j'.enabled = false ∧ j'.nextDueAt = none
          ∧ (∀ (env2 : EvalEnv) (p2 : Bool) (s2 : WakeSource) (n2 : Int),
              processJob env2 p2 s2 n2 j' = .ok (j', none, none, none, false))
          ∧ (∀ (env2 : EvalEnv) (st2 : SchedulerCore) (s2 : WakeSource) (n2 : Int),
              st2.jobs = [j'] → checkDueJobs env2 st2 s2 n2 = .ok (st2, [], [], [])))
      ∧ (job.schedule.kind = .every →
          j'.enabled = true
          ∧ j'.nextDueAt = computeNextDueAt job.schedule now
          ∧ (∀ e a : Int, job.schedule.everyMs = some e → 0 < e → job.schedule.anchorMs = some a →
              ∀ r : Int, j'.nextDueAt = some r →
                now < r ∧ (a ≤ now → ∀ k : Int, now < a + k * e → r ≤ a + k * e))) := by
  have hpj : processJob env paused source now job =
      .ok ((fireJob job now source).1, some (fireJob job now source).2, none,
        some { id := job.id, name := job.name, overdueMs := max 0 (now - d) }, true) := by
    simp [processJob, henabled, hdue, not_lt.mpr hd, hskip]
  have hfire2 : (fireJob job now source).2 =
      { id := job.id, name := job.name, firedAt := now, source := source, data := job.data } := rfl
  have hdisabled : ∀ h : (fireJob job now source).1.enabled = false,
      ∀ (env2 : EvalEnv) (p2 : Bool) (s2 : WakeSource) (n2 : Int),
      processJob env2 p2 s2 n2 (fireJob job now source).1 =
        .ok ((fireJob job now source).1, none, none, none, false) :=
    fun h env2 p2 s2 n2 => processJob_disabled env2 p2 s2 n2 _ h
  refine ⟨(fireJob job now source).1, by rw [hpj, hfire2], ?_, ?_, ?_, ?_, ?_, ?_⟩
  · simp only [fireJob]
    split <;> rfl
  · simp only [fireJob]
    split <;> rfl
  · simp only [fireJob]
    split <;> rfl
  · intro st hjobs hpaused
    unfold checkDueJobs
    rw [hjobs, hpaused]
    unfold runJobs
    rw [hpj]
    unfold runJobs
    simp [hfire2]
  · intro hk
    have hen : (fireJob job now source).1.enabled = false := by
      simp [fireJob, hk]
    have hnd : (fireJob job now source).1.nextDueAt = none := by
      simp [fireJob, hk]
    refine ⟨hen, hnd, hdisabled hen, ?_⟩
    intro env2 st2 s2 n2 hjobs
    unfold checkDueJobs
    rw [hjobs]
    unfold runJobs
    rw [hdisabled hen env2 st2.paused s2 n2]
    unfold runJobs
    have : { st2 with jobs := [(fireJob job now source).1] } = st2 := by
      cases st2
      simp_all
    simp [this]
  · intro hk
    have hne : ¬ job.schedule.kind = .at' := by
      rw [hk]
      decide
    have hen : (fireJob job now source).1.enabled = job.enabled := by
      simp [fireJob, if_neg hne]
    have hnd : (fireJob job now source).1.nextDueAt = computeNextDueAt job.schedule now := by
      simp [fireJob, if_neg hne]
    refine ⟨by rw [hen, henabled], hnd, ?_⟩
    intro e a hev he han r hr
    rw [hnd, computeNextDueAt_every job.schedule now e a he hk hev han] at hr
    have hr' : r = if now < a then a else a + ((now - a) / e + 1) * e := (Option.some.inj hr).symm
    subst hr'
    constructor
    · split
      · assumption
      · exact nextSlot_gt he
    · intro hle k hk'
      rw [if_neg (not_lt.mpr hle)]
      exact nextSlot_min he hk'

/-- Witness for C2: an `every 1000, anchor 0` job due at `1000` and
evaluated at `1500` fires (event source `watchdog`, overdue `500`ms),
resets its skip counter, and advances to `nextDueAt = 2000` — one slot, not
a backlog. -/
theorem checkDueJobs_fire_advance_witness :
    ∃ j' : CronJobState,
      processJob ⟨⟨fun _ => true, fun _ _ => (0, 0)⟩, true⟩ false .watchdog 1500
          { id := "j1", name := "tick", enabled := true,
            schedule := ⟨.every, some 1000, some 0, none⟩,
            requiresNetwork := false, requiresCharging := false, priority := .normal,
            nextDueAt := some 1000, consecutiveSkips := 3, createdAt := 0, updatedAt := 0 } =
        .ok (j',
          some { id := "j1", name := "tick", firedAt := 1500, source := .watchdog, data := none },
          none, some { id := "j1", name := "tick", overdueMs := 500 }, true)
      ∧ j'.nextDueAt = some 2000 ∧ j'.consecutiveSkips = 0 := by
  obtain ⟨j', h1, hl, hu, hc, hst, hat, hev⟩ :=
    checkDueJobs_fire_advance ⟨⟨fun _ => true, fun _ _ => (0, 0)⟩, true⟩ false .watchdog 1500
      { id := "j1", name := "tick", enabled := true,
        schedule := ⟨.every, some 1000, some 0, none⟩,
        requiresNetwork := false, requiresCharging := false, priority := .normal,
        nextDueAt := some 1000, consecutiveSkips := 3, createdAt := 0, updatedAt := 0 }
      1000 rfl rfl (by decide) rfl
  refine ⟨j', ?_, ?_, hc⟩
  · rw [h1]
    norm_num
  · rw [(hev rfl).2.1]
    decide

/-! ### C3 -/

/-- C3: when an evaluation pass skips a due, enabled job, its
`consecutiveSkips` increases by exactly 1, `updatedAt` is stamped, a skip
record with the reason is emitted, and `nextDueAt` is recomputed from `now`
only for an `Every` schedule — an `At` schedule keeps its (past) `nextDueAt`,
so the skipped one-shot stays due and fires on the next evaluation whose
skip check returns none.  The final conjunct states that `getSkipReason`
returns the first matching condition in the fixed order `paused`,
`outside_active_hours`, `requires_network`, `requires_charging`. -/
theorem checkDueJobs_skip_increment (env : EvalEnv) (paused : Bool) (source : WakeSource)
    (now : Int) (job : CronJobState) (d : Int) (r : SkipReason)
    (henabled : job.enabled = true) (hdue : job.nextDueAt = some d) (hd : d ≤ now)
    (hskip : getSkipReason env paused job now source = .ok (some r)) :
    (∃ j' : CronJobState,
      processJob env paused source now job =
        .ok (j', none, some { id := job.id, name := job.name, reason := r }, none, true)
      ∧ j'.consecutiveSkips = job.consecutiveSkips + 1
      ∧ j'.updatedAt = now
      ∧ j'.enabled = true
      ∧ j'.lastFiredAt = job.lastFiredAt
      ∧ (∀ st : SchedulerCore, st.jobs = [job] → st.paused = paused →
          checkDueJobs env st source now =
            .ok ({ st with jobs := [j'] }, [],
              [{ id := job.id, name := job.name, reason := r }], []))
      ∧ (job.schedule.kind = .every → j'.nextDueAt = computeNextDueAt job.schedule now)
      ∧ (job.schedule.kind = .at' →
          j'.nextDueAt = some d
          ∧ (∀ (env2 : EvalEnv) (p2 : Bool) (s2 : WakeSource) (n2 : Int),
              now ≤ n2 →
              getSkipReason env2 p2 j' n2 s2 = .ok none →
              processJob env2 p2 s2 n2 j' =
                .ok ((fireJob j' n2 s2).1,
                  some { id := job.id, name := job.name, firedAt := n2, source := s2,
                         data := job.data },
                  none,
                  some { id := job.id, name := job.name, overdueMs := max 0 (n2 - d) }, true))))
    ∧ (∀ (env' : EvalEnv) (p' : Bool) (job' : CronJobState) (now' : Int) (src' : WakeSource),
        (p' = true → getSkipReason env' p' job' now' src' = .ok (some .paused))
        ∧ (p' = false → ∀ hrs, job'.activeHours = some hrs →
            isWithinActiveHours env'.time hrs now' = .ok false →
            getSkipReason env' p' job' now' src' = .ok (some .outside_active_hours))
        ∧ (p' = false →
            (job'.activeHours = none ∨
              ∃ hrs, job'.activeHours = some hrs
                ∧ isWithinActiveHours env'.time hrs now' = .ok true) →
            job'.requiresNetwork = true → isNetworkAvailable env' = false →
            getSkipReason env' p' job' now' src' = .ok (some .requires_network))
        ∧ (p' = false →
            (job'.activeHours = none ∨
              ∃ hrs, job'.activeHours = some hrs
                ∧ isWithinActiveHours env'.time hrs now' = .ok true) →
            (job'.requiresNetwork = false ∨ isNetworkAvailable env' = true) →
            job'.requiresCharging = true → isChargingAvailable src' = false →
            getSkipReason env' p' job' now' src' = .ok (some .requires_charging))) := by
  constructor
  · have hpj : processJob env paused source now job =
        .ok ({ job with
                consecutiveSkips := job.consecutiveSkips + 1,
                updatedAt := now,
                nextDueAt :=
                  if job.schedule.kind = .every then computeNextDueAt job.schedule now
                  else some d },
          none, some { id := job.id, name := job.name, reason := r }, none, true) := by
      simp [processJob, henabled, hdue, not_lt.mpr hd, hskip]
    refine ⟨_, hpj, rfl, rfl, henabled, rfl, ?_, ?_, ?_⟩
    · intro st hjobs hpaused
      unfold checkDueJobs
      rw [hjobs, hpaused]
      unfold runJobs
      rw [hpj]
      unfold runJobs
      simp
    · intro hk
      simp [hk]
    · intro hk
      have hne : ¬ job.schedule.kind = .every := by
        rw [hk]
        decide
      refine ⟨by simp [if_neg hne], ?_⟩
      intro env2 p2 s2 n2 hn hskip2
      simp only [henabled, if_neg hne] at hskip2
      simp [processJob, henabled, if_neg hne, not_lt.mpr (le_trans hd hn), hskip2]
      rfl
  · intro env' p' job' now' src'
    refine ⟨?_, ?_, ?_, ?_⟩
    · intro hp
      simp [getSkipReason, hp]
    · intro hp hrs hah hW
      simp [getSkipReason, hp, hah, hW]
    · intro hp hah hn hnet
      have hnet' : env'.networkAvailable = false := hnet
      rcases hah with hnone | ⟨hrs, hah, hW⟩
      · simp [getSkipReason, hp, hnone, hn, hnet']
        intro h
        exact absurd (hnet.symm.trans h) (by decide)
      · simp [getSkipReason, hp, hah, hW, hn, hnet']
        intro h
        exact absurd (hnet.symm.trans h) (by decide)
    · intro hp hah hnet hc hch
      have hrest : (job'.requiresNetwork && !env'.networkAvailable) = false := by
        rcases hnet with h | h
        · simp [h]
        · have h' : env'.networkAvailable = true := h
          simp [h']
      rcases hah with hnone | ⟨hrs, hah, hW⟩
      · simp [getSkipReason, isNetworkAvailable, hp, hnone, hrest, hc, hch]
      · simp [getSkipReason, isNetworkAvailable, hp, hah, hW, hrest, hc, hch]

/-- Witness for C3: a paused, due `every 1000, anchor 0` job evaluated at
`1500` is skipped with reason `paused`, its skip counter goes from 0 to 1,
and its `nextDueAt` advances to the next future slot `2000`. -/
theorem checkDueJobs_skip_increment_witness :
    ∃ j' : CronJobState,
      processJob ⟨⟨fun _ => true, fun _ _ => (0, 0)⟩, true⟩ true .watchdog 1500
          { id := "j1", name := "tick", enabled := true,
            schedule := ⟨.every, some 1000, some 0, none⟩,
            requiresNetwork := false, requiresCharging := false, priority := .normal,
            nextDueAt := some 1000, consecutiveSkips := 0, createdAt := 0, updatedAt := 0 } =
        .ok (j', none, some { id := "j1", name := "tick", reason := .paused }, none, true)
      ∧ j'.consecutiveSkips = 1 ∧ j'.nextDueAt = some 2000 := by
  obtain ⟨⟨j', h1, hc, hu, hen, hl, hst, hev, hat⟩, hcascade⟩ :=
    checkDueJobs_skip_increment ⟨⟨fun _ => true, fun _ _ => (0, 0)⟩, true⟩ true .watchdog 1500
      { id := "j1", name := "tick", enabled := true,
        schedule := ⟨.every, some 1000, some 0, none⟩,
        requiresNetwork := false, requiresCharging := false, priority := .normal,
        nextDueAt := some 1000, consecutiveSkips := 0, createdAt := 0, updatedAt := 0 }
      1000 .paused rfl rfl (by decide) rfl
  refine ⟨j', h1, by rw [hc]; rfl, ?_⟩
  rw [hev rfl]
  decide

/-! ### C4 -/

/-- C4: for a window whose `start` and `end` parse as HH:MM and whose
timezone resolves, with `m` the minute-of-day of the timestamp in the
window's timezone, `isWithinActiveHours` returns `true` when
`start = end` (disabled window), `start ≤ m ∧ m < end` when `start < end`
(inclusive start, exclusive end), and `start ≤ m ∨ m < end` when
`start > end` (overnight wraparound). -/
theorem isWithinActiveHours_window_spec (env : TimeEnv) (hours : ActiveHours) (now : Int)
    (s e : Nat) (hs : parseClock hours.start = some s) (he : parseClock hours.end' = some e)
    (htz : hours.tz = none ∨ ∃ tz, hours.tz = some tz ∧ env.tzValid tz = true) :
    isWithinActiveHours env hours now =
      .ok (let p := env.localParts hours.tz now
           let m := p.1 * 60 + p.2
           if s = e then true
           else if s < e then decide (s ≤ m ∧ m < e)
           else decide (s ≤ m ∨ m < e)) := by
  unfold isWithinActiveHours
  rw [hs, he]
  rcases htz with h | ⟨tz, h, hv⟩
  · rw [h]
    by_cases hse : s = e
    · simp [hse]
    · by_cases hlt : s < e <;> simp [hse, hlt]
  · rw [h]
    simp only [hv, if_true]
    by_cases hse : s = e
    · simp [hse]
    · by_cases hlt : s < e <;> simp [hse, hlt]

/-- Witness for C4: with the host resolving the timestamp to 00:30 UTC, the
overnight window 22:00-06:00 contains it; resolving to 10:00 UTC, the same
window excludes it. -/
theorem isWithinActiveHours_window_spec_witness :
    isWithinActiveHours ⟨fun tz => tz = "UTC", fun _ _ => (0, 30)⟩
        ⟨"22:00", "06:00", some "UTC"⟩ 0 = .ok true
    ∧ isWithinActiveHours ⟨fun tz => tz = "UTC", fun _ _ => (10, 0)⟩
        ⟨"22:00", "06:00", some "UTC"⟩ 0 = .ok false := by
  constructor
  · rw [isWithinActiveHours_window_spec ⟨fun tz => tz = "UTC", fun _ _ => (0, 30)⟩
      ⟨"22:00", "06:00", some "UTC"⟩ 0 1320 360 (by decide) (by decide)
      (Or.inr ⟨"UTC", rfl, by decide⟩)]
    rfl
  · rw [isWithinActiveHours_window_spec ⟨fun tz => tz = "UTC", fun _ _ => (10, 0)⟩
      ⟨"22:00", "06:00", some "UTC"⟩ 0 1320 360 (by decide) (by decide)
      (Or.inr ⟨"UTC", rfl, by decide⟩)]
    rfl

/-! ### C5 -/

/-- C5: `triggerNow` on a registered job fires it immediately with source
`manual`, applying exactly the `fireJob` post-fire advance that a normal
fire applies, and leaves `paused` and `mode` unchanged; on an unknown id it
rejects with the not-found error and — since the function returns before
touching anything — mutates no state.  The statement quantifies over every
state, in particular states with `paused = true` or jobs with
`activeHours` / constraint flags set: the operation never consults them
(its definition takes no evaluation environment at all). -/
theorem triggerNow_spec (state : SchedulerCore) (id : String) (now : Int) :
    (getJob state.jobs id = none →
      triggerNow state id now = .error ("Job not found: " ++ id))
    ∧ (∀ job, getJob state.jobs id = some job →
        triggerNow state id now =
          .ok ({ state with jobs := setJob state.jobs (fireJob job now .manual).1 },
            { id := job.id, name := job.name, firedAt := now, source := .manual,
              data := job.data })
        ∧ ({ state with jobs := setJob state.jobs (fireJob job now .manual).1 } :
            SchedulerCore).paused = state.paused
        ∧ ({ state with jobs := setJob state.jobs (fireJob job now .manual).1 } :
            SchedulerCore).mode = state.mode
        ∧ (fireJob job now .manual).1.lastFiredAt = some now
        ∧ (fireJob job now .manual).1.updatedAt = now
        ∧ (fireJob job now .manual).1.consecutiveSkips = 0) := by
  constructor
  · intro h
    unfold triggerNow
    rw [h]
  · intro job h
    refine ⟨?_, rfl, rfl, ?_, ?_, ?_⟩
    · unfold triggerNow
      rw [h]
      rfl
    · simp only [fireJob]
      split <;> rfl
    · simp only [fireJob]
      split <;> rfl
    · simp only [fireJob]
      split <;> rfl

/-- Witness for C5: on a one-job paused state, `triggerNow` of the known id
fires with source `manual` keeping `paused = true`, and `triggerNow` of an
unknown id rejects. -/
theorem triggerNow_spec_witness :
    triggerNow
        { jobs := [{ id := "j1", name := "tick", enabled := true,
                     schedule := ⟨.every, some 1000, some 0, none⟩,
                     requiresNetwork := true, requiresCharging := true, priority := .normal,
                     nextDueAt := some 1000, consecutiveSkips := 0,
                     createdAt := 0, updatedAt := 0 }],
          paused := true, mode := "balanced", platform := "web" } "j1" 500 =
      .ok ({ jobs := [{ id := "j1", name := "tick", enabled := true,
                        schedule := ⟨.every, some 1000, some 0, none⟩,
                        requiresNetwork := true, requiresCharging := true, priority := .normal,
                        lastFiredAt := some 500, nextDueAt := some 1000,
                        consecutiveSkips := 0, createdAt := 0, updatedAt := 500 }],
             paused := true, mode := "balanced", platform := "web" },
        { id := "j1", name := "tick", firedAt := 500, source := .manual, data := none })
    ∧ triggerNow (defaultCore "web") "ghost" 0 = .error "Job not found: ghost" := by
  constructor
  · have h := ((triggerNow_spec
      { jobs := [{ id := "j1", name := "tick", enabled := true,
                   schedule := ⟨.every, some 1000, some 0, none⟩,
                   requiresNetwork := true, requiresCharging := true, priority := .normal,
                   nextDueAt := some 1000, consecutiveSkips := 0,
                   createdAt := 0, updatedAt := 0 }],
        paused := true, mode := "balanced", platform := "web" } "j1" 500).2
      { id := "j1", name := "tick", enabled := true,
        schedule := ⟨.every, some 1000, some 0, none⟩,
        requiresNetwork := true, requiresCharging := true, priority := .normal,
        nextDueAt := some 1000, consecutiveSkips := 0,
        createdAt := 0, updatedAt := 0 } (by decide)).1
    rw [h]
    rfl
  · exact (triggerNow_spec (defaultCore "web") "ghost" 0).1 (by decide)

/-! ### C6 -/

/-- Counterexample for C6: the scheduler's `setMode` does not reject a mode
outside `{eco, balanced, aggressive}` — the string "turbo" is stored and
the previously stored mode ("balanced") is overwritten, contradicting
"rejects with a validation error and the stored mode is unchanged". -/
theorem setMode_no_validation_cex :
    (setMode (defaultCore "web") "turbo").mode = "turbo"
    ∧ "turbo" ≠ "eco" ∧ "turbo" ≠ "balanced" ∧ "turbo" ≠ "aggressive"
    ∧ (defaultCore "web").mode = "balanced" :=
  ⟨rfl, by decide, by decide, by decide, rfl⟩

/-- C6 amended: `MobileCronScheduler.setMode` performs no runtime
validation — it stores whatever mode string it is given (the TypeScript
`SchedulingMode` type constrains compile-time callers, and the native
Android/iOS plugin layers validate at their boundary), touching neither
jobs nor the paused flag; `getStatus` (via `buildStatus`) then reports the
stored mode. -/
theorem setMode_stores_mode (state : SchedulerCore) (mode : String) (now : Int) :
    (setMode state mode).mode = mode
    ∧ (buildStatus (setMode state mode) now).mode = mode
    ∧ (setMode state mode).jobs = state.jobs
    ∧ (setMode state mode).paused = state.paused
    ∧ (setMode state mode).platform = state.platform :=
  ⟨rfl, rfl, rfl, rfl, rfl⟩

/-! ### C7 -/

/-- Counterexample for C7: `isWithinActiveHours` is not total over an
arbitrary tz string.  When both clock strings parse, the code constructs
`new Intl.DateTimeFormat('en-US', { timeZone: hours.tz })`, and ECMA-402
requires that constructor to throw `RangeError` for an invalid timezone
identifier such as "Not/AZone"; with a host model that rejects that
identifier the call yields an error, not a boolean — so "never throws" is
false. -/
theorem isWithinActiveHours_throws_cex :
    isWithinActiveHours ⟨fun tz => tz = "UTC", fun _ _ => (12, 0)⟩
      ⟨"09:00", "17:00", some "Not/AZone"⟩ 0 = .error () := rfl

/-- C7 amended: `isWithinActiveHours` returns `true` (fail open) whenever
`start` or `end` fails to parse as HH:MM — that check runs before the
`Intl` formatter is constructed, so in that case no tz string can make it
throw — and it never throws when the tz is absent or accepted by the host.
Only when both clocks parse and the tz is an invalid identifier does the
`Intl.DateTimeFormat` construction throw, and the method propagates it. -/
theorem isWithinActiveHours_fail_open (env : TimeEnv) (hours : ActiveHours) (now : Int) :
    ((parseClock hours.start = none ∨ parseClock hours.end' = none) →
      isWithinActiveHours env hours now = .ok true)
    ∧ (hours.tz = none → ∃ b, isWithinActiveHours env hours now = .ok b)
    ∧ (∀ tz, hours.tz = some tz → env.tzValid tz = true →
        ∃ b, isWithinActiveHours env hours now = .ok b) := by
  refine ⟨?_, ?_, ?_⟩
  · intro h
    unfold isWithinActiveHours
    rcases h with h | h
    · rw [h]
    · cases h1 : parseClock hours.start with
      | none => rfl
      | some s => rw [h]
  · intro h
    unfold isWithinActiveHours
    cases h1 : parseClock hours.start with
    | none => exact ⟨true, rfl⟩
    | some s =>
      cases h2 : parseClock hours.end' with
      | none => exact ⟨true, rfl⟩
      | some e =>
        rw [h]
        dsimp only
        split
        · exact ⟨_, rfl⟩
        · split
          · exact ⟨_, rfl⟩
          · exact ⟨_, rfl⟩
  · intro tz h hv
    unfold isWithinActiveHours
    cases h1 : parseClock hours.start with
    | none => exact ⟨true, rfl⟩
    | some s =>
      cases h2 : parseClock hours.end' with
      | none => exact ⟨true, rfl⟩
      | some e =>
        rw [h]
        dsimp only
        rw [if_pos hv]
        split
        · exact ⟨_, rfl⟩
        · split
          · exact ⟨_, rfl⟩
          · exact ⟨_, rfl⟩

/-- Witness for the amended C7: a start string with a single-digit hour
does not parse, so the call fails open to `true` — even with a host that
rejects the window's tz string. -/
theorem isWithinActiveHours_fail_open_witness :
    isWithinActiveHours ⟨fun _ => false, fun _ _ => (0, 0)⟩
      ⟨"9:00", "17:00", some "Not/AZone"⟩ 0 = .ok true :=
  (isWithinActiveHours_fail_open ⟨fun _ => false, fun _ _ => (0, 0)⟩
    ⟨"9:00", "17:00", some "Not/AZone"⟩ 0).1 (Or.inl (by decide))

/-! ### C10 -/

/-- `Map.get` after `Map.set` of the same id yields the entry just set. -/
theorem getJob_setJob (jobs : List CronJobState) (j : CronJobState) :
    getJob (setJob jobs j) j.id = some j := by
  induction jobs with
  | nil => simp [getJob, setJob]
  | cons x xs ih =>
    by_cases h : x.id = j.id
    · simp [setJob, h, getJob]
    · simp only [setJob, if_neg h]
      simpa [getJob, List.find?, h] using ih

/-- C10: `triggerNow` does not check the job's `enabled` flag: a job that
exists in the store but is disabled — in particular a one-shot that
already fired and was set `enabled = false` — fires again, with a
`jobDue` event with source `manual` and `lastFiredAt`/`updatedAt` stamped
to now. -/
theorem triggerNow_ignores_enabled (state : SchedulerCore) (id : String) (now : Int)
    (job : CronJobState) (hfind : getJob state.jobs id = some job)
    (_hdis : job.enabled = false) :
    ∃ st' : SchedulerCore,
      triggerNow state id now =
        .ok (st', { id := job.id, name := job.name, firedAt := now, source := .manual,
                    data := job.data })
      ∧ ∃ j', getJob st'.jobs job.id = some j'
          ∧ j'.lastFiredAt = some now ∧ j'.updatedAt = now := by
  refine ⟨{ state with jobs := setJob state.jobs (fireJob job now .manual).1 }, ?_, ?_⟩
  · unfold triggerNow
    rw [hfind]
    rfl
  · refine ⟨(fireJob job now .manual).1, ?_, ?_, ?_⟩
    · have hid : (fireJob job now .manual).1.id = job.id := by
        simp only [fireJob]
        split <;> rfl
      rw [← hid]
      exact getJob_setJob state.jobs _
    · simp only [fireJob]
      split <;> rfl
    · simp only [fireJob]
      split <;> rfl

/-- Witness for C10: a fired one-shot (`enabled = false`, `nextDueAt`
absent) is fired again by `triggerNow`, with a manual-source event and a
fresh `lastFiredAt`. -/
theorem triggerNow_ignores_enabled_witness :
    ∃ st' : SchedulerCore,
      triggerNow
          { jobs := [{ id := "one", name := "shot", enabled := false,
                       schedule := ⟨.at', none, none, some 100⟩,
                       requiresNetwork := false, requiresCharging := false,
                       priority := .normal, lastFiredAt := some 100, nextDueAt := none,
                       consecutiveSkips := 0, createdAt := 0, updatedAt := 100 }],
            paused := false, mode := "balanced", platform := "web" } "one" 200 =
        .ok (st', { id := "one", name := "shot", firedAt := 200, source := .manual,
                    data := none })
      ∧ ∃ j', getJob st'.jobs "one" = some j'
          ∧ j'.lastFiredAt = some 200 ∧ j'.updatedAt = 200 :=
  triggerNow_ignores_enabled
    { jobs := [{ id := "one", name := "shot", enabled := false,
                 schedule := ⟨.at', none, none, some 100⟩,
                 requiresNetwork := false, requiresCharging := false,
                 priority := .normal, lastFiredAt := some 100, nextDueAt := none,
                 consecutiveSkips := 0, createdAt := 0, updatedAt := 100 }],
      paused := false, mode := "balanced", platform := "web" } "one" 200
    { id := "one", name := "shot", enabled := false,
      schedule := ⟨.at', none, none, some 100⟩,
      requiresNetwork := false, requiresCharging := false,
      priority := .normal, lastFiredAt := some 100, nextDueAt := none,
      consecutiveSkips := 0, createdAt := 0, updatedAt := 100 }
    (by decide) rfl

/-! ### C8 -/

/-- `restoreJob` keeps the raw job's id. -/
theorem restoreJob_id (now : Int) (j : RawJob) : (restoreJob now j).id = j.id := by
  unfold restoreJob
  dsimp only
  split <;> rfl

/-- `Map.set` of an id not yet present appends. -/
theorem setJob_of_fresh (jobs : List CronJobState) (j : CronJobState)
    (h : ∀ x ∈ jobs, x.id ≠ j.id) : setJob jobs j = jobs ++ [j] := by
  induction jobs with
  | nil => rfl
  | cons x xs ih =>
    simp only [setJob]
    rw [if_neg (h x (by simp)), ih (fun y hy => h y (by simp [hy]))]
    rfl

/-- The job-restoration fold of `load`: with pairwise-distinct raw ids that
are fresh for the accumulator, it appends the restorations of exactly the
jobs whose schedules validate, keeping `paused`/`mode`/`platform`. -/
theorem load_foldl (platform : String) (now : Int) :
    ∀ (rjobs : List RawJob) (base : SchedulerCore),
      ((rjobs.map fun j => j.id).Nodup) →
      (∀ j ∈ rjobs, ∀ x ∈ base.jobs, x.id ≠ j.id) →
      rjobs.foldl
        (fun acc job =>
          if validateSchedule platform job.schedule then
            { acc with jobs := setJob acc.jobs (restoreJob now job) }
          else acc) base =
      { base with jobs :=
          base.jobs ++
            ((rjobs.filter fun j => validateSchedule platform j.schedule).map (restoreJob now)) } := by
  intro rjobs
  induction rjobs with
  | nil =>
    intro base _ _
    simp
  | cons j rest ih =>
    intro base hnodup hfresh
    obtain ⟨hj, hrest⟩ := List.nodup_cons.mp hnodup
    by_cases hval : validateSchedule platform j.schedule
    · have hset : setJob base.jobs (restoreJob now j) = base.jobs ++ [restoreJob now j] := by
        apply setJob_of_fresh
        intro x hx
        rw [restoreJob_id]
        exact hfresh j (by simp) x hx
      have hfresh' : ∀ j' ∈ rest, ∀ x ∈ base.jobs ++ [restoreJob now j], x.id ≠ j'.id := by
        intro j' hj' x hx
        rcases List.mem_append.mp hx with hx | hx
        · exact hfresh j' (by simp [hj']) x hx
        · have hxe : x = restoreJob now j := by simpa using hx
          subst hxe
          rw [restoreJob_id]
          intro hcontra
          apply hj
          show j.id ∈ List.map (fun y => y.id) rest
          rw [hcontra]
          exact List.mem_map_of_mem (fun y => y.id) hj'
      have := ih { base with jobs := base.jobs ++ [restoreJob now j] } hrest hfresh'
      simp only [List.foldl_cons, if_pos hval, hset]
      rw [this]
      simp [List.filter_cons, hval]
    · have := ih base hrest (fun j' hj' => hfresh j' (by simp [hj']))
      simp only [List.foldl_cons, if_neg hval]
      rw [this]
      simp [List.filter_cons, hval]

/-- C8: loading is fail-safe.  An absent/unparseable/falsy blob leaves the
(fresh default) state untouched — `paused = false`, `mode = "balanced"`,
zero jobs; a blob whose `version` is not `1` does the same, with no partial
merge of its payload; and in a version-1 blob each job whose schedule fails
validation is dropped while every sibling is restored in order. -/
theorem load_failsafe (platform : String) (now : Int) :
    (load (defaultCore platform) none now = defaultCore platform
      ∧ (defaultCore platform).paused = false
      ∧ (defaultCore platform).mode = "balanced"
      ∧ (defaultCore platform).jobs = [])
    ∧ (∀ raw : RawState, raw.version ≠ some 1 →
        load (defaultCore platform) (some raw) now = defaultCore platform)
    ∧ (∀ raw : RawState, raw.version = some 1 →
        ((raw.jobs.getD []).map fun j => j.id).Nodup →
        load (defaultCore platform) (some raw) now =
          { jobs := ((raw.jobs.getD []).filter
                fun j => validateSchedule platform j.schedule).map (restoreJob now),
            paused := raw.paused.getD false,
            mode := raw.mode.getD "balanced",
            platform := platform }) := by
  refine ⟨⟨rfl, rfl, rfl, rfl⟩, ?_, ?_⟩
  · intro raw h
    unfold load
    dsimp only
    rw [if_pos h]
  · intro raw hv hnodup
    unfold load
    dsimp only
    rw [if_neg (by simp [hv])]
    have h := load_foldl platform now (raw.jobs.getD [])
      { defaultCore platform with
          paused := raw.paused.getD false
          mode := raw.mode.getD "balanced"
          jobs := [] }
      hnodup (by simp)
    simp only [defaultCore] at h ⊢
    rw [h]
    simp

/-- Witness for C8: a version-99 blob loads as the untouched default
(`balanced`, unpaused, no jobs), and a version-1 blob with a valid `every`
job, a malformed `every` job (missing interval), and a valid `at` job loads
exactly the two valid jobs. -/
theorem load_failsafe_witness :
    load (defaultCore "web")
        (some { version := some 99, paused := some true, mode := some "eco",
                jobs := some [] }) 0 = defaultCore "web"
    ∧ load (defaultCore "web")
        (some { version := some 1, paused := some true, mode := some "eco",
                jobs := some
                  [{ id := "a", name := "good", enabled := true,
                     schedule := ⟨.every, some 60000, some 0, none⟩,
                     requiresNetwork := false, requiresCharging := false,
                     priority := some .normal, nextDueAt := some 60000,
                     consecutiveSkips := some 0, createdAt := some 0, updatedAt := some 0 },
                   { id := "b", name := "bad", enabled := true,
                     schedule := ⟨.every, none, none, none⟩,
                     requiresNetwork := false, requiresCharging := false },
                   { id := "c", name := "shot", enabled := false,
                     schedule := ⟨.at', none, none, some 100⟩,
                     requiresNetwork := false, requiresCharging := false,
                     lastFiredAt := some 100, consecutiveSkips := some 0,
                     createdAt := some 0, updatedAt := some 100 }] }) 0 =
      { jobs :=
          [{ id := "a", name := "good", enabled := true,
             schedule := ⟨.every, some 60000, some 0, none⟩,
             requiresNetwork := false, requiresCharging := false,
             priority := .normal, nextDueAt := some 60000,
             consecutiveSkips := 0, createdAt := 0, updatedAt := 0 },
           { id := "c", name := "shot", enabled := false,
             schedule := ⟨.at', none, none, some 100⟩,
             requiresNetwork := false, requiresCharging := false,
             priority := .normal, lastFiredAt := some 100,
             consecutiveSkips := 0, createdAt := 0, updatedAt := 100 }],
        paused := true, mode := "eco", platform := "web" } := by
  constructor
  · exact (load_failsafe "web" 0).2.1 _ (by decide)
  · rw [(load_failsafe "web" 0).2.2 _ rfl (by decide)]
    rfl

/-! ### C9 -/

/-- `serializeJob` keeps the job's id. -/
theorem serializeJob_id (j : CronJobState) : (serializeJob j).id = j.id := rfl

/-- `normalizeSchedule` fixes schedules already in normal form. -/
theorem normalizeSchedule_normal (s : CronSchedule) (now : Int) (h : NormalSchedule s) :
    normalizeSchedule s now = s := by
  obtain ⟨k, ev, an, t⟩ := s
  cases k
  · obtain ⟨ha, ht⟩ := h
    obtain ⟨a, ha⟩ := Option.isSome_iff_exists.mp ha
    simp only at ha ht
    subst ha ht
    rfl
  · obtain ⟨hev, han⟩ := h
    simp only at hev han
    subst hev han
    rfl

/-- Restoring a serialized valid job gives the job back. -/
theorem restoreJob_serializeJob (platform : String) (now : Int) (job : CronJobState)
    (h : ValidJob platform now job) : restoreJob now (serializeJob job) = job := by
  obtain ⟨hval, hnorm, hnext⟩ := h
  obtain ⟨jid, jname, jen, jsch, jah, jrn, jrc, jp, jd, jlf, jnd, jcs, jca, jup⟩ := job
  have hns : normalizeSchedule jsch now = jsch := normalizeSchedule_normal jsch now hnorm
  unfold restoreJob serializeJob
  dsimp only
  rw [hns]
  cases jen with
  | false => simp
  | true =>
    cases jnd with
    | some x => simp
    | none =>
      have hcd : computeNextDueAt jsch now = none := hnext rfl rfl
      simp [hcd]

/-- C9: save-then-reload is the identity on states whose jobs are all
valid: `load` of `serialize state` on a fresh default scheduler restores
the same `paused` flag, mode, and the identical job records — ids, names,
schedules with anchors, activeHours, constraint flags, priority, data,
`lastFiredAt`, `nextDueAt`, `consecutiveSkips`, `createdAt`, `updatedAt`.
"Valid" is `ValidJob`: the schedule validates and is in normal form, and
`nextDueAt` is absent for an enabled job only when no occurrence is
computable; the id-distinctness hypothesis is the `Map` invariant of the
in-memory store. -/
theorem serialize_load_round_trip (state : SchedulerCore) (now : Int)
    (hvalid : ∀ job ∈ state.jobs, ValidJob state.platform now job)
    (hids : (state.jobs.map fun j => j.id).Nodup) :
    load (defaultCore state.platform) (some (serialize state)) now = state := by
  obtain ⟨jobs, paused, mode, platform⟩ := state
  simp only at hvalid hids
  unfold load serialize
  dsimp only
  rw [if_neg (by simp)]
  have hids' : ((jobs.map serializeJob).map fun j => j.id).Nodup := by
    have : (jobs.map serializeJob).map (fun j => j.id) = jobs.map fun j => j.id := by
      induction jobs with
      | nil => rfl
      | cons x xs ih => simp_all [serializeJob_id]
    rw [this]
    exact hids
  have hfold := load_foldl (defaultCore platform).platform now (jobs.map serializeJob)
    { defaultCore platform with paused := paused, mode := mode, jobs := [] }
    hids' (by simp)
  simp only [defaultCore] at hfold ⊢
  simp only [Option.getD_some]
  rw [hfold]
  have hjobs : ∀ (l : List CronJobState), (∀ job ∈ l, ValidJob platform now job) →
      ((l.map serializeJob).filter
        fun j => validateSchedule platform j.schedule).map (restoreJob now) = l := by
    intro l
    induction l with
    | nil => intro _; rfl
    | cons x xs ih =>
      intro hv
      have hx := hv x (by simp)
      have hsx : validateSchedule platform (serializeJob x).schedule = true := hx.1
      simp only [List.map_cons, List.filter_cons]
      rw [if_pos hsx]
      simp only [List.map_cons]
      rw [restoreJob_serializeJob platform now x hx, ih (fun y hy => hv y (by simp [hy]))]
  rw [hjobs jobs hvalid]
  simp

/-- Witness for C9: a two-job state (a pending `every` job with data and a
fired, disabled one-shot) survives serialize-then-load unchanged. -/
theorem serialize_load_round_trip_witness :
    load (defaultCore "web")
        (some (serialize
          { jobs :=
              [{ id := "a", name := "tick", enabled := true,
                 schedule := ⟨.every, some 60000, some 500, none⟩,
                 activeHours := some ⟨"09:00", "18:00", some "UTC"⟩,
                 requiresNetwork := true, requiresCharging := false,
                 priority := .high, data := some [("k", "v")],
                 lastFiredAt := some 60500, nextDueAt := some 120500,
                 consecutiveSkips := 2, createdAt := 100, updatedAt := 60500 },
               { id := "b", name := "shot", enabled := false,
                 schedule := ⟨.at', none, none, some 900⟩,
                 requiresNetwork := false, requiresCharging := true,
                 priority := .low, lastFiredAt := some 900, nextDueAt := none,
                 consecutiveSkips := 0, createdAt := 50, updatedAt := 900 }],
            paused := true, mode := "eco", platform := "web" })) 1000 =
      { jobs :=
          [{ id := "a", name := "tick", enabled := true,
             schedule := ⟨.every, some 60000, some 500, none⟩,
             activeHours := some ⟨"09:00", "18:00", some "UTC"⟩,
             requiresNetwork := true, requiresCharging := false,
             priority := .high, data := some [("k", "v")],
             lastFiredAt := some 60500, nextDueAt := some 120500,
             consecutiveSkips := 2, createdAt := 100, updatedAt := 60500 },
           { id := "b", name := "shot", enabled := false,
             schedule := ⟨.at', none, none, some 900⟩,
             requiresNetwork := false, requiresCharging := true,
             priority := .low, lastFiredAt := some 900, nextDueAt := none,
             consecutiveSkips := 0, createdAt := 50, updatedAt := 900 }],
        paused := true, mode := "eco", platform := "web" } := by
  exact serialize_load_round_trip
    { jobs :=
        [{ id := "a", name := "tick", enabled := true,
           schedule := ⟨.every, some 60000, some 500, none⟩,
           activeHours := some ⟨"09:00", "18:00", some "UTC"⟩,
           requiresNetwork := true, requiresCharging := false,
           priority := .high, data := some [("k", "v")],
           lastFiredAt := some 60500, nextDueAt := some 120500,
           consecutiveSkips := 2, createdAt := 100, updatedAt := 60500 },
         { id := "b", name := "shot", enabled := false,
           schedule := ⟨.at', none, none, some 900⟩,
           requiresNetwork := false, requiresCharging := true,
           priority := .low, lastFiredAt := some 900, nextDueAt := none,
           consecutiveSkips := 0, createdAt := 50, updatedAt := 900 }],
      paused := true, mode := "eco", platform := "web" } 1000
    (by
      intro job hj
      simp only [List.mem_cons, List.mem_singleton] at hj
      rcases hj with h | h | h
      · subst h
        exact ⟨by decide, by decide, by intro h1 h2; cases h2⟩
      · subst h
        exact ⟨by decide, by decide, by intro h1; cases h1⟩
      · cases h)
    (by decide)

end MobileCron
